import Mathlib

/-!
# Verification of the event-sourced document/creativity pipeline

Shallow embedding of the core of the `agi-build-agent` repository:
the document-ingestion pipeline (`Main.py` / `Fastapi_main.py`), the
flat-file event log (`Agi_memory.py`) and the creative-cycle amplifier
(`Recursive_amplifier.py` / `Transformation_engine.py`).

Strings are modelled as `List Char`; Python string operations
(`in`, `.lower()`, `str(list)`, `os.path.basename`, `str.replace`,
`str.strip`, `os.path.join`) are given explicit executable models.
-/

namespace AgiBuild

/-- Strings of the embedded program, modelled as lists of characters. -/
abbrev Str := List Char

/-! ## Python string primitives -/

/-- Python's substring test `needle in hay` (`True` iff `needle` occurs
as a contiguous substring of `hay`; the empty string occurs in every string). -/
def pyIn (needle : Str) : Str → Bool
  | [] => needle.isEmpty
  | c :: t => needle.isPrefixOf (c :: t) || pyIn needle t

/-- Python's `str.lower()`, restricted to the character-wise ASCII case map
(all characters the embedded code ever compares are ASCII). -/
def pyLower (s : Str) : Str := s.map Char.toLower

/-- Python's `sep.join(pieces)`. -/
def pyStrJoin (sep : Str) : List Str → Str
  | [] => []
  | [t] => t
  | t :: u :: rest => t ++ sep ++ pyStrJoin sep (u :: rest)

/-- Python's `str(list_of_strings)`: `[]` for the empty list, otherwise
`['a', 'b', ...]` — each element quoted and separated by `', '`.
(`repr` escaping inside elements is not modelled; the keywords the code
searches for consist of letters only, which `repr` never escapes.) -/
def pyStrList (ts : List Str) : Str :=
  match ts with
  | [] => "[]".toList
  | t :: rest => ['[', '\''] ++ pyStrJoin ['\'', ',', ' ', '\''] (t :: rest) ++ ['\'', ']']

/-- `os.path.basename` on POSIX: everything after the last `/`. -/
def pyBasename (s : Str) : Str := (s.reverse.takeWhile (· ≠ '/')).reverse

/-- `os.path.join a b` on POSIX (for a single join): `b` if `b` is absolute,
otherwise `a ++ "/" ++ b`. -/
def pyJoin (a b : Str) : Str :=
  match b with
  | '/' :: _ => b
  | _ => a ++ '/' :: b

/-- Python's `s.replace("..", "_")`: scan left to right, replacing each
non-overlapping leftmost occurrence of `".."` by `"_"`. -/
def pyReplaceDotsUnderscore : Str → Str
  | [] => []
  | [c] => [c]
  | c :: d :: rest =>
      if c = '.' ∧ d = '.' then '_' :: pyReplaceDotsUnderscore rest
      else c :: pyReplaceDotsUnderscore (d :: rest)

/-- ASCII whitespace, the characters Python's `str.strip()` removes
(restricted to ASCII, as elsewhere in the embedding). -/
def pyIsSpace (c : Char) : Bool :=
  c = ' ' || c = '\t' || c = '\n' || c = '\r' || c = '\x0b' || c = '\x0c'

/-- Python's `str.strip()`: drop whitespace from both ends. -/
def pyStrip (s : Str) : Str :=
  ((s.dropWhile pyIsSpace).reverse.dropWhile pyIsSpace).reverse

/-! ## `sanitize_filename` (Main.py lines 52–58, Fastapi_main.py 106–107)

`os.path.basename(filename).replace("..", "_").strip()` -/

def sanitize_filename (filename : Str) : Str :=
  pyStrip (pyReplaceDotsUnderscore (pyBasename filename))

/-! ## Upload metadata and the classifier (Main.py lines 89–98) -/

/-- `UploadMetadata` (Main.py lines 35–43): human-provided hints. -/
structure UploadMetadata where
  document_type : Option Str := none
  priority : Nat := 5
  tags : List Str := []
deriving DecidableEq, Repr

/-- The classifier of `dynamic_document_processor` (Main.py lines 89–98):
an ordered substring-rule chain over the lowercased file path and the
lowercased `str()` of the tag list. -/
def agiDeterminedType (file_path : Str) (tags : List Str) : Str :=
  let fp := pyLower file_path
  let tagsS := pyLower (pyStrList tags)
  if pyIn "contract".toList fp || pyIn "agreement".toList fp
      || pyIn "legal".toList tagsS then "contract".toList
  else if pyIn "invoice".toList fp || pyIn "billing".toList tagsS then "invoice".toList
  else if pyIn "research".toList fp || pyIn "paper".toList fp then "research_paper".toList
  else "unknown".toList

/-- The classifier as the spec's §4.2 sentence states it (used only to be
compared with `agiDeterminedType`): first-match-wins, where the tag rules
quantify over the individual tags rather than over `str(tags)`. -/
def classifierSpec (file_path : Str) (tags : List Str) : Str :=
  let fp := pyLower file_path
  if pyIn "contract".toList fp || pyIn "agreement".toList fp
      || tags.any (fun t => pyIn "legal".toList (pyLower t)) then "contract".toList
  else if pyIn "invoice".toList fp
      || tags.any (fun t => pyIn "billing".toList (pyLower t)) then "invoice".toList
  else if pyIn "research".toList fp || pyIn "paper".toList fp then "research_paper".toList
  else "unknown".toList

/-! ## The stage registry (Main.py lines 107–118) -/

/-- Stage lists selected per inferred category (Main.py lines 107–118);
the `else` branch is the fallback for unrecognized categories. -/
def processingModules (agi_determined_type : Str) : List Str :=
  if agi_determined_type = "contract".toList then
    ["deep_ocr_segmentation".toList, "semantic_clause_extraction".toList,
     "entity_resolution_graph_update".toList, "predictive_risk_assessment_model".toList]
  else if agi_determined_type = "invoice".toList then
    ["adaptive_form_recognition".toList, "line_item_data_extraction_nlp".toList,
     "automated_reconciliation_engine".toList]
  else if agi_determined_type = "research_paper".toList then
    ["scientific_abstract_summarization".toList, "citation_network_mapping".toList,
     "novelty_detection_algorithm".toList]
  else
    ["general_content_indexing".toList, "topic_modeling_discovery".toList]

/-! ## Directory configuration (Main.py lines 22–28) -/

def contractsDir : Str := "/mnt/data/processed/contracts".toList
def papersDir : Str := "/mnt/data/processed/papers".toList
def invoicesDir : Str := "/mnt/data/processed/invoices".toList
def quarantineDir : Str := "/mnt/data/quarantine".toList
def tempStagingDir : Str := "/tmp/agi_staging".toList

/-- `DYNAMIC_DIRS.get(key, ...)` as used by the processor: the mapping from
category keys to destination directories (Main.py lines 22–28). -/
def dynamicDirsGet (key : Str) : Option Str :=
  if key = "contract".toList then some contractsDir
  else if key = "research_paper".toList then some papersDir
  else if key = "invoice".toList then some invoicesDir
  else if key = "quarantine".toList then some quarantineDir
  else if key = "temp_staging".toList then some tempStagingDir
  else none

/-! ## Event records (Agi_memory.py) -/

/-- The payload dictionary passed to `store_event`, modelled as a record of
the keys the source code ever writes or reads (each optional, mirroring
`dict.get`). -/
structure EventData where
  correlation_id : Option Str := none
  file_path : Option Str := none
  metadata : Option UploadMetadata := none
  agi_determined_type : Option Str := none
  workflow : Option (List Str) := none
  module : Option Str := none
  status : Option Str := none
  error : Option Str := none
  quarantined_path : Option Str := none
  final_path : Option Str := none
deriving DecidableEq, Repr

/-- A stored event record (`store_event`, Agi_memory.py lines 12–23):
a timestamp (modelled as an abstract orderable instant), an event type tag,
and the payload. -/
structure Event where
  timestamp : Nat
  event_type : Str
  data : EventData
deriving DecidableEq, Repr

instance : Inhabited EventData := ⟨{}⟩

instance : Inhabited Event := ⟨{ timestamp := 0, event_type := [], data := {} }⟩

/-- The append-only event log: the list of records in insertion order. -/
abbrev EventLog := List Event

/-- The descending order on events used by `get_recent_events`:
`a` comes no later than `b` iff `b.timestamp ≤ a.timestamp`. -/
def tsGE (a b : Event) : Prop := b.timestamp ≤ a.timestamp

instance : DecidableRel tsGE := fun a b => Nat.decLe b.timestamp a.timestamp

instance : IsTotal Event tsGE := ⟨fun a b => Nat.le_total b.timestamp a.timestamp⟩

instance : IsTrans Event tsGE := ⟨fun _ _ _ hab hbc => Nat.le_trans hbc hab⟩

/-- `sorted(results, key=lambda x: x.get("timestamp",""), reverse=True)`
(Agi_memory.py line 38): a stable descending sort by timestamp.  Python's
`sorted` is a stable sort; any stable sort by the same comparator produces
the same output list, so the stable `insertionSort` is an exact model. -/
def sortByTimestampDesc (l : List Event) : List Event :=
  l.insertionSort tsGE

/-- `get_recent_events(limit=10, correlation_id=None)` (Agi_memory.py
lines 25–39).  Note the Python truthiness test `if correlation_id:` means a
`None` *or empty* correlation id selects the whole log. -/
def get_recent_events (db : EventLog) (limit : Nat := 10)
    (correlation_id : Option Str := none) : List Event :=
  let results :=
    match correlation_id with
    | some cid =>
        if cid.isEmpty then db
        else db.filter (fun e => e.data.correlation_id = some cid)
    | none => db
  (sortByTimestampDesc results).take limit

/-! ## The status endpoint (Main.py lines 230–258) -/

/-- The part of the `/document_status/{correlation_id}` response derived
from the event log (Main.py lines 237–258). -/
structure StatusSummary where
  agi_processing_status : Str
  last_agi_action : Str
  agi_event_history : List Event
deriving DecidableEq, Repr

/-- `get_document_status` (Main.py lines 230–258): query the log with the
default limit of 10, then read `events[-1]` — the *last* element of the
descending-sorted list — as `latest_event`. -/
def get_document_status (db : EventLog) (correlation_id : Str) : StatusSummary :=
  let events := get_recent_events db 10 (some correlation_id)
  match events.getLast? with
  | none =>
      { agi_processing_status := "Unknown".toList
        last_agi_action := "No AGI action recorded yet.".toList
        agi_event_history := events }
  | some latest_event =>
      { agi_processing_status := latest_event.event_type
        last_agi_action :=
          (latest_event.data.module).getD
            ((latest_event.data.status).getD "No specific action data.".toList)
        agi_event_history := events }

/-! ## The pipeline runner (`dynamic_document_processor`, Main.py 60–174)

Exceptions are embedded by a fault parameter naming the point of the `try`
body (if any) at which a fault is raised, together with the fault's message
(Python's `str(e)`, which may be empty). -/

/-- Where (if anywhere) a fault is raised inside the processor's `try` body. -/
inductive Fault where
  /-- No fault: the run completes. -/
  | none
  /-- A fault raised during classification (step 1). -/
  | classify (msg : Str)
  /-- A fault raised while executing stage `i` (0-based) of the resolved
  module list; if `i` is past the end of the list the loop finishes and no
  fault occurs. -/
  | stage (i : Nat) (msg : Str)
  /-- A fault raised by the final `shutil.move` to the destination. -/
  | finalMove (msg : Str)
deriving DecidableEq, Repr

/-- An event as emitted by the processor via `store_event(type, data)`:
the log layer attaches the timestamp. -/
abbrev Emit := Str × EventData

/-- The `document_ingestion_start` event stored before the `try`
(Main.py line 78). -/
def ingestEmit (cid fp : Str) (md : UploadMetadata) : Emit :=
  ("document_ingestion_start".toList,
   { correlation_id := some cid, file_path := some fp, metadata := some md })

/-- The `document_classification` event (Main.py line 99). -/
def classifyEmit (cid ty : Str) : Emit :=
  ("document_classification".toList,
   { correlation_id := some cid, agi_determined_type := some ty })

/-- The `workflow_assembly` event (Main.py line 121). -/
def workflowEmit (cid : Str) (mods : List Str) : Emit :=
  ("workflow_assembly".toList,
   { correlation_id := some cid, workflow := some mods })

/-- The `module_execution` event stored after each stage (Main.py line 142). -/
def moduleEmit (cid : Str) (m : Str) : Emit :=
  ("module_execution".toList,
   { correlation_id := some cid, module := some m, status := some "completed".toList })

/-- The `document_processing_complete` event (Main.py line 152). -/
def completeEmit (cid p : Str) : Emit :=
  ("document_processing_complete".toList,
   { correlation_id := some cid, final_path := some p })

/-- The `agi_learning_cycle` event (Main.py line 161). -/
def learnEmit (cid : Str) : Emit :=
  ("agi_learning_cycle".toList,
   { correlation_id := some cid, status := some "re-theorizing completed".toList })

/-- The `document_processing_error` event stored in the `except` handler
(Main.py line 173). -/
def errorEmit (cid : Str) (msg : Str) (qpath : Str) : Emit :=
  ("document_processing_error".toList,
   { correlation_id := some cid, error := some msg, quarantined_path := some qpath })

/-- The quarantine destination used by the `except` handler (Main.py line 170):
`os.path.join(DYNAMIC_DIRS["quarantine"], os.path.basename(file_path))`. -/
def quarantinePathOf (file_path : Str) : Str :=
  pyJoin quarantineDir (pyBasename file_path)

/-- The result of one processor run: the events appended (in order) and the
path the item's file was moved to. -/
structure RunResult where
  events : List Emit
  fileDest : Str
deriving DecidableEq, Repr

/-- `dynamic_document_processor` (Main.py lines 60–174), as a function from
the inputs and the injected fault to the emitted event trace and the file's
final location.  The trace follows the source line by line:
`document_ingestion_start` is stored before the `try`; the `try` body
classifies, assembles the workflow, executes the stages in order storing one
`module_execution` event each, moves the file to
`DYNAMIC_DIRS.get(type, quarantine)` and stores
`document_processing_complete` then `agi_learning_cycle`; any fault jumps to
the `except` handler, which moves the file to quarantine and stores a single
`document_processing_error` event. -/
def dynamic_document_processor (file_path : Str) (initial_metadata : UploadMetadata)
    (correlation_id : Str) (fault : Fault) : RunResult :=
  let cid := correlation_id
  let ty := agiDeterminedType file_path initial_metadata.tags
  let mods := processingModules ty
  let qpath := quarantinePathOf file_path
  let finalDir := (dynamicDirsGet ty).getD quarantineDir
  let finalPath := pyJoin finalDir (pyBasename file_path)
  let successTrace : RunResult :=
    { events := ingestEmit cid file_path initial_metadata :: classifyEmit cid ty
        :: workflowEmit cid mods :: mods.map (moduleEmit cid)
        ++ [completeEmit cid finalPath, learnEmit cid],
      fileDest := finalPath }
  match fault with
  | .none => successTrace
  | .classify msg =>
      { events := [ingestEmit cid file_path initial_metadata, errorEmit cid msg qpath],
        fileDest := qpath }
  | .stage i msg =>
      if i < mods.length then
        { events := ingestEmit cid file_path initial_metadata :: classifyEmit cid ty
            :: workflowEmit cid mods :: (mods.take i).map (moduleEmit cid)
            ++ [errorEmit cid msg qpath],
          fileDest := qpath }
      else successTrace
  | .finalMove msg =>
      { events := ingestEmit cid file_path initial_metadata :: classifyEmit cid ty
          :: workflowEmit cid mods :: mods.map (moduleEmit cid)
          ++ [errorEmit cid msg qpath],
        fileDest := qpath }

/-- An emitted event is terminal iff its type is `document_processing_complete`
or `document_processing_error` (the event vocabulary's `*_complete`/`*_error`
tags reachable in a pipeline run). -/
def isTerminalEmit (e : Emit) : Bool :=
  e.1 = "document_processing_complete".toList || e.1 = "document_processing_error".toList

/-- Recognizes a `document_processing_complete` event. -/
def isCompleteEmit (e : Emit) : Bool :=
  e.1 = "document_processing_complete".toList

/-- Recognizes a `document_processing_error` event. -/
def isErrorEmit (e : Emit) : Bool :=
  e.1 = "document_processing_error".toList

/-- Recognizes a `module_execution` event. -/
def isModuleEmit (e : Emit) : Bool :=
  e.1 = "module_execution".toList

/-! ## The ingestion endpoint and its scheduling (Main.py lines 177–220)

`ingest_document` stages the upload and then runs
`app.add_event_handler("startup", lambda: app.loop.create_task(...))`.
FastAPI/Starlette semantics (modelled here): `add_event_handler("startup", h)`
only records `h` in the application's startup-handler list, and startup
handlers are invoked exactly once, when the application transitions from
not-started to started.  A handler registered after startup is never invoked.
The model is charitable in that it lets a startup handler actually create its
task if startup were ever to fire (in the real code the handler would
additionally crash on the nonexistent `app.loop` attribute). -/

/-- A pending `dynamic_document_processor(path, metadata, cid)` invocation. -/
structure PendingRun where
  file_path : Str
  metadata : UploadMetadata
  correlation_id : Str
deriving DecidableEq, Repr

/-- The application state: whether startup already ran, the registered
startup handlers, the created (not yet finished) background tasks, and the
event log (as emitted `(type, data)` records, in append order). -/
structure AppState where
  started : Bool
  handlers : List PendingRun
  tasks : List PendingRun
  log : List Emit
deriving DecidableEq, Repr

/-- `ingest_document` (Main.py lines 177–220), success path: stage the file
under `temp_staging/{correlation_id}_{sanitized_filename}` and register the
processor invocation as a *startup* event handler; no task is created and no
event is stored.  Returns the new state and the correlation id echoed in the
response. -/
def ingest_document (s : AppState) (filename : Str) (metadata : UploadMetadata)
    (correlation_id : Str) : AppState × Str :=
  let sanitized := sanitize_filename filename
  let initial_save_path :=
    pyJoin tempStagingDir (correlation_id ++ '_' :: sanitized)
  ({ s with handlers := s.handlers
      ++ [{ file_path := initial_save_path, metadata := metadata,
            correlation_id := correlation_id }] },
   correlation_id)

/-- System evolution after a request is accepted: a created task may run to
completion (appending its whole event trace, with any fault outcome), and a
not-yet-started application may start, promoting the registered startup
handlers to tasks. -/
inductive AppStep : AppState → AppState → Prop where
  | runTask (s : AppState) (t : PendingRun) (fault : Fault) (h : t ∈ s.tasks) :
      AppStep s
        { s with
          tasks := s.tasks.erase t,
          log := s.log ++ (dynamic_document_processor t.file_path t.metadata
            t.correlation_id fault).events }
  | fireStartup (s : AppState) (h : s.started = false) :
      AppStep s
        { started := true, handlers := [],
          tasks := s.tasks ++ s.handlers, log := s.log }

/-- Reflexive-transitive closure of `AppStep`. -/
abbrev AppReaches : AppState → AppState → Prop := Relation.ReflTransGen AppStep

/-! ## The creative cycle (Transformation_engine.py, Recursive_amplifier.py) -/

/-- A creative construct: the dictionary threaded through the creative
stages, modelled as a record of the keys the stages write
(`Seed_generator.py` creates `type`/`value`/`inferred_context`/
`iteration_count`; `Pattern_mapper.py` adds `identified_patterns`;
`Transformation_engine.py` writes `value`, `transformation_applied` and
`iteration_count`). -/
structure CreativeConstruct where
  type : Str := []
  value : Str := []
  iteration_count : Nat := 0
  transformation_applied : Option Str := none
  identified_patterns : List Str := []
deriving DecidableEq, Repr

/-- `self.transformation_modes` (Transformation_engine.py line 9). -/
def transformation_modes : List Str :=
  ["stylistic".toList, "modal".toList, "conceptual".toList, "syntactic".toList]

/-- Python's `str.upper()`, character-wise ASCII (as `pyLower`). -/
def pyUpper (s : Str) : Str := s.map Char.toUpper

/-- The mode `transform` selects:
`transformation_modes[iteration_count % len(transformation_modes)]`
(Transformation_engine.py line 21). -/
def selectMode (data : CreativeConstruct) : Str :=
  transformation_modes.getD (data.iteration_count % transformation_modes.length) []

/-- `TransformationEngine.transform` (Transformation_engine.py lines 12–30):
copy the construct, rewrite `value`, record the mode applied, and increment
`iteration_count` by one. -/
def transform (data : CreativeConstruct) : CreativeConstruct :=
  let transformation_mode := selectMode data
  { data with
    value := '[' :: pyUpper transformation_mode ++ "::Transformed::".toList
      ++ data.value ++ [']'],
    transformation_applied := some transformation_mode,
    iteration_count := data.iteration_count + 1 }

/-- `RecursiveAmplifier.amplify` (Recursive_amplifier.py lines 13–26):
`for i in range(depth): current = transformer.transform(current)`. -/
def amplify (depth : Nat) (seed : CreativeConstruct) : CreativeConstruct :=
  match depth with
  | 0 => seed
  | d + 1 => amplify d (transform seed)

/-- The sequence of modes the amplifier applies, pass by pass (the mode each
`transform` call selects on the construct it receives). -/
def amplifyModes (depth : Nat) (seed : CreativeConstruct) : List Str :=
  match depth with
  | 0 => []
  | d + 1 => selectMode seed :: amplifyModes d (transform seed)

/-! ## Auxiliary definitions used by the statements and proofs -/

/-- Characters that can never occur in the lowercase keyword literals the
classifier searches for, but make up all of Python's list-`str` punctuation. -/
def specialChar (c : Char) : Bool :=
  c = '[' || c = ']' || c = '\'' || c = ',' || c = ' '

/-- Decides whether a string contains two adjacent dots (a `".."` substring). -/
def hasDotDot : Str → Bool
  | [] => false
  | [_] => false
  | c :: d :: t => (c = '.' && d = '.') || hasDotDot (d :: t)

/-- A first (oldest) event of a sample run: `document_ingestion_start` for
correlation id `"c"` at time 1. -/
def sampleIngestEvent : Event :=
  { timestamp := 1, event_type := "document_ingestion_start".toList,
    data := { correlation_id := some "c".toList,
              file_path := some "/tmp/agi_staging/c_x.pdf".toList } }

/-- A later event of the same sample run: `document_classification` for
correlation id `"c"` at time 2. -/
def sampleClassifyEvent : Event :=
  { timestamp := 2, event_type := "document_classification".toList,
    data := { correlation_id := some "c".toList,
              agi_determined_type := some "unknown".toList } }

/-- An event belonging to a different correlation id `"x"`. -/
def sampleOtherEvent : Event :=
  { timestamp := 3, event_type := "document_ingestion_start".toList,
    data := { correlation_id := some "x".toList } }

/-! ## General lemmas about the Python string primitives -/

theorem pyIn_iff (needle hay : Str) : pyIn needle hay = true ↔ needle <:+: hay := by
  induction hay with
  | nil =>
      simp [pyIn, List.isEmpty_iff]
  | cons c t ih =>
      simp only [pyIn, Bool.or_eq_true, List.isPrefixOf_iff_prefix, ih,
        List.infix_cons_iff]

theorem infix_append_cases {α : Type} {k a b : List α} (h : k <:+: a ++ b) :
    k <:+: a ∨ k <:+: b ∨
      ∃ k₁ k₂, k = k₁ ++ k₂ ∧ k₁ ≠ [] ∧ k₂ ≠ [] ∧ k₁ <:+ a ∧ k₂ <+: b := by
  obtain ⟨s, t, hst⟩ := h
  rw [List.append_assoc] at hst
  rcases List.append_eq_append_iff.1 hst with ⟨w, hw1, hw2⟩ | ⟨w, hw1, hw2⟩
  · -- a = s ++ w  and  k ++ t = w ++ b
    rcases List.append_eq_append_iff.1 hw2 with ⟨u, hu1, hu2⟩ | ⟨u, hu1, hu2⟩
    · -- w = k ++ u  and  t = u ++ b : k lies inside a
      exact Or.inl ⟨s, u, by rw [hw1, hu1, List.append_assoc]⟩
    · -- k = w ++ u  and  b = u ++ t
      rcases u with _ | ⟨c, u⟩
      · -- k = w : k is a suffix of a
        exact Or.inl ⟨s, [], by rw [hw1, hu1]; simp⟩
      · rcases w with _ | ⟨d, w⟩
        · -- k is a prefix of b
          exact Or.inr (Or.inl ⟨[], t, by rw [hu2, hu1]; simp⟩)
        · exact Or.inr (Or.inr ⟨d :: w, c :: u, hu1, by simp, by simp,
            ⟨s, hw1.symm⟩, ⟨t, hu2.symm⟩⟩)
  · -- s = a ++ w  and  b = w ++ (k ++ t) : k lies inside b
    exact Or.inr (Or.inl ⟨w, t, by rw [hw2, List.append_assoc]⟩)

theorem not_infix_of_all_special {k l : Str} (hk : k ≠ [])
    (hns : ∀ c ∈ k, specialChar c = false) (hl : ∀ c ∈ l, specialChar c = true) :
    ¬ k <:+: l := by
  intro h
  obtain ⟨c, hc⟩ := List.exists_mem_of_ne_nil k hk
  have h1 := hns c hc
  have h2 := hl c (h.subset hc)
  rw [h1] at h2
  cases h2

theorem pyStrJoin_infix_of_mem {sep : Str} {t : Str} {ts : List Str} (h : t ∈ ts) :
    t <:+: pyStrJoin sep ts := by
  induction ts with
  | nil => cases h
  | cons u rest ih =>
      rcases rest with _ | ⟨v, rest'⟩
      · rcases List.mem_cons.1 h with h | h
        · exact h ▸ List.infix_rfl
        · cases h
      · rcases List.mem_cons.1 h with h | h
        · exact h ▸ ⟨[], sep ++ pyStrJoin sep (v :: rest'), by simp [pyStrJoin]⟩
        · exact (ih h).trans ⟨u ++ sep, [], by simp [pyStrJoin]⟩

theorem pyStrJoin_infix_extract {sep k : Str} (hk : k ≠ [])
    (hns : ∀ c ∈ k, specialChar c = false) (hsep : ∀ c ∈ sep, specialChar c = true)
    (hsepne : sep ≠ []) :
    ∀ ts : List Str, k <:+: pyStrJoin sep ts → ∃ t ∈ ts, k <:+: t := by
  intro ts
  induction ts with
  | nil =>
      intro h
      rw [pyStrJoin, List.infix_nil] at h
      exact absurd h hk
  | cons u rest ih =>
      intro h
      rcases rest with _ | ⟨v, rest'⟩
      · exact ⟨u, by simp, h⟩
      · rw [pyStrJoin, List.append_assoc] at h
        rcases infix_append_cases h with h1 | h1 | ⟨k₁, k₂, hk12, hk1, hk2, hk1s, hk2p⟩
        · exact ⟨u, by simp, h1⟩
        · rcases infix_append_cases h1 with h2 | h2 | ⟨k₁, k₂, hk12, hk1, hk2, hk1s, hk2p⟩
          · exact absurd h2 (not_infix_of_all_special hk hns hsep)
          · obtain ⟨t, ht, hti⟩ := ih h2
            exact ⟨t, by simp [ht], hti⟩
          · obtain ⟨c, hc⟩ := List.exists_mem_of_ne_nil k₁ hk1
            have h1' := hns c (hk12 ▸ List.mem_append_left _ hc)
            have h2' := hsep c (hk1s.subset hc)
            rw [h1'] at h2'
            cases h2'
        · rcases sep with _ | ⟨c0, sep'⟩
          · exact absurd rfl hsepne
          · rcases List.prefix_cons_iff.1 hk2p with h2 | ⟨t', ht', _⟩
            · exact absurd h2 hk2
            · have hc0k : c0 ∈ k := hk12 ▸ List.mem_append_right _ (ht' ▸ List.mem_cons_self _ _)
              have h1' := hns c0 hc0k
              have h2' := hsep c0 (List.mem_cons_self _ _)
              rw [h1'] at h2'
              cases h2'

theorem pyStrList_infix_iff {k : Str} (hk : k ≠ [])
    (hns : ∀ c ∈ k, specialChar c = false) (ts : List Str) :
    k <:+: pyStrList ts ↔ ∃ t ∈ ts, k <:+: t := by
  constructor
  · intro h
    rcases ts with _ | ⟨u, rest⟩
    · exact absurd h (not_infix_of_all_special hk hns (by decide))
    · rw [pyStrList, List.append_assoc] at h
      rcases infix_append_cases h with h1 | h1 | ⟨k₁, k₂, hk12, hk1, hk2, hk1s, hk2p⟩
      · exact absurd h1 (not_infix_of_all_special hk hns (by decide))
      · rcases infix_append_cases h1 with h2 | h2 | ⟨k₁, k₂, hk12, hk1, hk2, hk1s, hk2p⟩
        · exact pyStrJoin_infix_extract hk hns (by decide) (by decide) _ h2
        · exact absurd h2 (not_infix_of_all_special hk hns (by decide))
        · rcases List.prefix_cons_iff.1 hk2p with h2 | ⟨t', ht', _⟩
          · exact absurd h2 hk2
          · have hq : '\'' ∈ k := hk12 ▸ List.mem_append_right _ (ht' ▸ List.mem_cons_self _ _)
            have := hns '\'' hq
            simp [specialChar] at this
      · obtain ⟨c, hc⟩ := List.exists_mem_of_ne_nil k₁ hk1
        have h1' := hns c (hk12 ▸ List.mem_append_left _ hc)
        have h2' : specialChar c = true := by
          have := hk1s.subset hc
          fin_cases this <;> decide
        rw [h1'] at h2'
        cases h2'
  · rintro ⟨t, ht, hti⟩
    have h1 : t <:+: pyStrJoin ['\'', ',', ' ', '\''] ts := pyStrJoin_infix_of_mem ht
    have h2 : pyStrJoin ['\'', ',', ' ', '\''] ts <:+: pyStrList ts := by
      rcases ts with _ | ⟨u, rest⟩
      · cases ht
      · exact ⟨['[', '\''], ['\'', ']'], by rw [pyStrList]⟩
    exact hti.trans (h1.trans h2)

theorem pyLower_append (a b : Str) : pyLower (a ++ b) = pyLower a ++ pyLower b := by
  simp [pyLower]

theorem pyLower_pyStrJoin (sep : Str) (ts : List Str) :
    pyLower (pyStrJoin sep ts) = pyStrJoin (pyLower sep) (ts.map pyLower) := by
  induction ts with
  | nil => simp [pyStrJoin, pyLower]
  | cons u rest ih =>
      rcases rest with _ | ⟨v, rest'⟩
      · simp [pyStrJoin]
      · simp only [pyStrJoin, List.map_cons, pyLower_append, ih]

theorem pyLower_pyStrList (ts : List Str) :
    pyLower (pyStrList ts) = pyStrList (ts.map pyLower) := by
  rcases ts with _ | ⟨u, rest⟩
  · decide
  · simp only [pyStrList, List.map_cons, pyLower_append, pyLower_pyStrJoin]
    congr 1

theorem tag_keyword_bridge {k : Str} (hk : k ≠ [])
    (hns : ∀ c ∈ k, specialChar c = false) (tags : List Str) :
    pyIn k (pyLower (pyStrList tags)) = tags.any (fun t => pyIn k (pyLower t)) := by
  rw [pyLower_pyStrList, Bool.eq_iff_iff, pyIn_iff,
    pyStrList_infix_iff hk hns, List.any_eq_true]
  constructor
  · rintro ⟨t, ht, hti⟩
    obtain ⟨t₀, ht₀, rfl⟩ := List.mem_map.1 ht
    exact ⟨t₀, ht₀, (pyIn_iff _ _).2 hti⟩
  · rintro ⟨t, ht, hti⟩
    exact ⟨pyLower t, List.mem_map_of_mem _ ht, (pyIn_iff _ _).1 hti⟩

/-! ## Claim theorems -/

/-- C4: the classifier is a deterministic, pure, first-match-wins substring
rule list: for every file path and tag list, a lowercased path containing
"contract" or "agreement" or a tag containing "legal" yields `contract`;
otherwise a path containing "invoice" or a tag containing "billing" yields
`invoice`; otherwise a path containing "research" or "paper" yields
`research_paper`; otherwise `unknown` — i.e. the source classifier coincides
with the rule list exactly as the spec words it. -/
theorem classifier_matches_spec (file_path : Str) (tags : List Str) :
    agiDeterminedType file_path tags = classifierSpec file_path tags := by
  unfold agiDeterminedType classifierSpec
  dsimp only
  rw [tag_keyword_bridge (by decide) (by decide) tags,
    tag_keyword_bridge (by decide) (by decide) tags]

/-- C8: every category resolves to a non-empty stage list; `contract`
resolves to exactly the four contract stages, and an unrecognized category
(`unknown`) resolves to the designated fallback list. -/
theorem stage_registry_resolution :
    (∀ category : Str, processingModules category ≠ []) ∧
    processingModules "contract".toList =
      ["deep_ocr_segmentation".toList, "semantic_clause_extraction".toList,
       "entity_resolution_graph_update".toList,
       "predictive_risk_assessment_model".toList] ∧
    processingModules "unknown".toList =
      ["general_content_indexing".toList, "topic_modeling_discovery".toList] := by
  refine ⟨?_, by decide, by decide⟩
  intro category
  unfold processingModules
  split
  · simp
  · split
    · simp
    · split <;> simp

/-- C7: amplifying a construct with `iteration_count = 0` at depth 4 applies
the transform exactly 4 times, yields `iteration_count = 4`, and applies the
modes `stylistic, modal, conceptual, syntactic` in that order; each pass
selects `modes[iteration_count % len(modes)]` and increments
`iteration_count` by exactly one. -/
theorem amplify_depth_four (seed : CreativeConstruct) (h : seed.iteration_count = 0) :
    (amplify 4 seed).iteration_count = 4 ∧
    amplifyModes 4 seed =
      ["stylistic".toList, "modal".toList, "conceptual".toList, "syntactic".toList] ∧
    (∀ c : CreativeConstruct, (transform c).iteration_count = c.iteration_count + 1) ∧
    (∀ c : CreativeConstruct,
      selectMode c = transformation_modes.getD
        (c.iteration_count % transformation_modes.length) []) := by
  refine ⟨?_, ?_, fun c => rfl, fun c => rfl⟩
  · simp [amplify, transform, h]
  · simp [amplifyModes, transform, selectMode, h, transformation_modes]

/-- Witness for C7 at a concrete seed construct. -/
theorem amplify_depth_four_witness :
    ({ value := "SEED".toList, iteration_count := 0 } : CreativeConstruct).iteration_count = 0 ∧
    (amplify 4 { value := "SEED".toList, iteration_count := 0 }).iteration_count = 4 :=
  ⟨rfl, (amplify_depth_four { value := "SEED".toList, iteration_count := 0 } rfl).1⟩

/-! ## Lemmas for `sanitize_filename` -/

theorem replace_head_dot : ∀ s : Str,
    (pyReplaceDotsUnderscore s).head? = some '.' → s.head? = some '.'
  | [] => by simp [pyReplaceDotsUnderscore]
  | [c] => by simp [pyReplaceDotsUnderscore]
  | c :: d :: rest => by
      rw [pyReplaceDotsUnderscore]
      split
      · simp
      · simp

theorem replace_no_dotdot : ∀ s : Str, hasDotDot (pyReplaceDotsUnderscore s) = false
  | [] => rfl
  | [c] => rfl
  | c :: d :: rest => by
      rw [pyReplaceDotsUnderscore]
      split
      · have ih := replace_no_dotdot rest
        rcases h : pyReplaceDotsUnderscore rest with _ | ⟨e, t⟩
        · rfl
        · rw [h] at ih
          simp [hasDotDot, ih]
      · rename_i hcd
        have ih := replace_no_dotdot (d :: rest)
        rcases h : pyReplaceDotsUnderscore (d :: rest) with _ | ⟨e, t⟩
        · rfl
        · rw [h] at ih
          rw [hasDotDot, ih, Bool.or_false]
          by_cases hc : c = '.'
          · by_cases he : e = '.'
            · exfalso
              apply hcd
              refine ⟨hc, ?_⟩
              have := replace_head_dot (d :: rest) (by rw [h, he]; rfl)
              simpa using this
            · simp [he]
          · simp [hc]

theorem hasDotDot_iff : ∀ s : Str, hasDotDot s = true ↔ ['.', '.'] <:+: s
  | [] =>
      ⟨fun h => absurd h (by decide),
       fun h => absurd (List.infix_nil.1 h) (by decide)⟩
  | [c] => by
      rw [hasDotDot]
      constructor
      · intro h
        cases h
      · intro h
        have := h.sublist.length_le
        simp at this
  | c :: d :: t => by
      rw [hasDotDot, List.infix_cons_iff, ← hasDotDot_iff (d :: t)]
      simp only [Bool.or_eq_true, Bool.and_eq_true, decide_eq_true_eq]
      constructor
      · rintro (⟨rfl, rfl⟩ | h1)
        · exact Or.inl ⟨t, rfl⟩
        · exact Or.inr h1
      · rintro (h1 | h1)
        · obtain ⟨r, hr⟩ := h1
          have h2 := hr.symm
          simp only [List.cons_append, List.nil_append, List.cons.injEq] at h2
          exact Or.inl ⟨h2.1, h2.2.1⟩
        · exact Or.inr h1

theorem pyStrip_infix_self (s : Str) : pyStrip s <:+: s := by
  unfold pyStrip
  have h1 : s.dropWhile pyIsSpace <:+ s := List.dropWhile_suffix _
  have h2 : ((s.dropWhile pyIsSpace).reverse.dropWhile pyIsSpace).reverse
      <+: s.dropWhile pyIsSpace := by
    rw [← List.reverse_suffix, List.reverse_reverse]
    exact List.dropWhile_suffix _
  exact h2.isInfix.trans h1.isInfix

theorem mem_pyBasename {c : Char} {s : Str} (h : c ∈ pyBasename s) : c ≠ '/' := by
  unfold pyBasename at h
  rw [List.mem_reverse] at h
  simpa using List.mem_takeWhile_imp h

theorem mem_pyReplaceDotsUnderscore {c : Char} :
    ∀ {s : Str}, c ∈ pyReplaceDotsUnderscore s → c = '_' ∨ c ∈ s
  | [], h => by simp [pyReplaceDotsUnderscore] at h
  | [d], h => by
      simp [pyReplaceDotsUnderscore] at h
      simp [h]
  | d :: e :: rest, h => by
      rw [pyReplaceDotsUnderscore] at h
      split at h
      · rcases List.mem_cons.1 h with h1 | h1
        · exact Or.inl h1
        · rcases mem_pyReplaceDotsUnderscore h1 with h2 | h2
          · exact Or.inl h2
          · exact Or.inr (by simp [h2])
      · rcases List.mem_cons.1 h with h1 | h1
        · exact Or.inr (by simp [h1])
        · rcases mem_pyReplaceDotsUnderscore h1 with h2 | h2
          · exact Or.inl h2
          · exact Or.inr (by simpa using Or.inr (List.mem_cons.1 h2))

/-- C10: `sanitize_filename` never returns a string containing a path
separator or a `".."` substring, so a staged path
`temp_staging/{cid}_{sanitized}` cannot escape the staging directory through
the filename. -/
theorem sanitize_filename_safe (filename : Str) :
    '/' ∉ sanitize_filename filename ∧
    ¬ (['.', '.'] <:+: sanitize_filename filename) := by
  constructor
  · intro h
    have h1 : '/' ∈ pyReplaceDotsUnderscore (pyBasename filename) :=
      (pyStrip_infix_self _).subset h
    rcases mem_pyReplaceDotsUnderscore h1 with h2 | h2
    · cases h2
    · exact mem_pyBasename h2 rfl
  · intro h
    have h1 : ['.', '.'] <:+: pyReplaceDotsUnderscore (pyBasename filename) :=
      h.trans (pyStrip_infix_self _)
    rw [← hasDotDot_iff] at h1
    rw [replace_no_dotdot] at h1
    cases h1

/-! ## Lemmas about the pipeline trace -/

theorem isTerminalEmit_ingest (cid fp : Str) (md : UploadMetadata) :
    isTerminalEmit (ingestEmit cid fp md) = false := rfl

theorem isTerminalEmit_classify (cid ty : Str) :
    isTerminalEmit (classifyEmit cid ty) = false := rfl

theorem isTerminalEmit_workflow (cid : Str) (mods : List Str) :
    isTerminalEmit (workflowEmit cid mods) = false := rfl

theorem isTerminalEmit_module (cid m : Str) :
    isTerminalEmit (moduleEmit cid m) = false := rfl

theorem isTerminalEmit_complete (cid p : Str) :
    isTerminalEmit (completeEmit cid p) = true := rfl

theorem isTerminalEmit_learn (cid : Str) :
    isTerminalEmit (learnEmit cid) = false := rfl

theorem isTerminalEmit_error (cid msg q : Str) :
    isTerminalEmit (errorEmit cid msg q) = true := rfl

theorem isCompleteEmit_ingest (cid fp : Str) (md : UploadMetadata) :
    isCompleteEmit (ingestEmit cid fp md) = false := rfl

theorem isCompleteEmit_classify (cid ty : Str) :
    isCompleteEmit (classifyEmit cid ty) = false := rfl

theorem isCompleteEmit_workflow (cid : Str) (mods : List Str) :
    isCompleteEmit (workflowEmit cid mods) = false := rfl

theorem isCompleteEmit_module (cid m : Str) :
    isCompleteEmit (moduleEmit cid m) = false := rfl

theorem isCompleteEmit_complete (cid p : Str) :
    isCompleteEmit (completeEmit cid p) = true := rfl

theorem isCompleteEmit_learn (cid : Str) :
    isCompleteEmit (learnEmit cid) = false := rfl

theorem isCompleteEmit_error (cid msg q : Str) :
    isCompleteEmit (errorEmit cid msg q) = false := rfl

theorem isErrorEmit_ingest (cid fp : Str) (md : UploadMetadata) :
    isErrorEmit (ingestEmit cid fp md) = false := rfl

theorem isErrorEmit_classify (cid ty : Str) :
    isErrorEmit (classifyEmit cid ty) = false := rfl

theorem isErrorEmit_workflow (cid : Str) (mods : List Str) :
    isErrorEmit (workflowEmit cid mods) = false := rfl

theorem isErrorEmit_module (cid m : Str) :
    isErrorEmit (moduleEmit cid m) = false := rfl

theorem isErrorEmit_complete (cid p : Str) :
    isErrorEmit (completeEmit cid p) = false := rfl

theorem isErrorEmit_learn (cid : Str) :
    isErrorEmit (learnEmit cid) = false := rfl

theorem isErrorEmit_error (cid msg q : Str) :
    isErrorEmit (errorEmit cid msg q) = true := rfl

theorem isModuleEmit_ingest (cid fp : Str) (md : UploadMetadata) :
    isModuleEmit (ingestEmit cid fp md) = false := rfl

theorem isModuleEmit_classify (cid ty : Str) :
    isModuleEmit (classifyEmit cid ty) = false := rfl

theorem isModuleEmit_workflow (cid : Str) (mods : List Str) :
    isModuleEmit (workflowEmit cid mods) = false := rfl

theorem isModuleEmit_module (cid m : Str) :
    isModuleEmit (moduleEmit cid m) = true := rfl

theorem isModuleEmit_error (cid msg q : Str) :
    isModuleEmit (errorEmit cid msg q) = false := rfl

theorem success_trace_facts (fp : Str) (md : UploadMetadata) (cid : Str) :
    ((dynamic_document_processor fp md cid Fault.none).events.countP isTerminalEmit = 1) ∧
    (((dynamic_document_processor fp md cid Fault.none).events.getLast?).map Prod.fst
        = some "agi_learning_cycle".toList ∧
      (((dynamic_document_processor fp md cid Fault.none).events.dropLast.getLast?).map
        isCompleteEmit = some true)) := by
  have hevs : (dynamic_document_processor fp md cid Fault.none).events =
      ((ingestEmit cid fp md :: classifyEmit cid (agiDeterminedType fp md.tags)
        :: workflowEmit cid (processingModules (agiDeterminedType fp md.tags))
        :: (processingModules (agiDeterminedType fp md.tags)).map (moduleEmit cid)
        ++ [completeEmit cid (pyJoin ((dynamicDirsGet (agiDeterminedType fp md.tags)).getD
              quarantineDir) (pyBasename fp))]) ++ [learnEmit cid]) := by
    simp [dynamic_document_processor]
  refine ⟨?_, ?_, ?_⟩
  · rw [hevs]
    simp [List.countP_append, List.countP_cons, List.countP_map, Function.comp,
      isTerminalEmit_ingest, isTerminalEmit_classify, isTerminalEmit_workflow,
      isTerminalEmit_module, isTerminalEmit_complete, isTerminalEmit_learn]
  · rw [hevs, List.getLast?_concat]
    rfl
  · rw [hevs, List.dropLast_concat, List.getLast?_concat]
    rfl

/-- C5: every pipeline run appends exactly one terminal event
(`document_processing_complete` or `document_processing_error`); when a
completion event is emitted it is immediately followed by the final
`agi_learning_cycle` event. -/
theorem exactly_one_terminal_event (fp : Str) (md : UploadMetadata) (cid : Str)
    (fault : Fault) :
    ((dynamic_document_processor fp md cid fault).events.countP isTerminalEmit = 1) ∧
    ((dynamic_document_processor fp md cid fault).events.countP isCompleteEmit = 0 ∨
      (((dynamic_document_processor fp md cid fault).events.getLast?).map Prod.fst
          = some "agi_learning_cycle".toList ∧
        (((dynamic_document_processor fp md cid fault).events.dropLast.getLast?).map
          isCompleteEmit = some true))) := by
  cases fault with
  | none =>
      obtain ⟨h1, h2, h3⟩ := success_trace_facts fp md cid
      exact ⟨h1, Or.inr ⟨h2, h3⟩⟩
  | classify msg =>
      constructor
      · simp [dynamic_document_processor, List.countP_cons,
          isTerminalEmit_ingest, isTerminalEmit_error]
      · left
        simp [dynamic_document_processor, List.countP_cons,
          isCompleteEmit_ingest, isCompleteEmit_error]
  | stage i msg =>
      by_cases hi : i < (processingModules (agiDeterminedType fp md.tags)).length
      · have hevs : (dynamic_document_processor fp md cid (Fault.stage i msg)).events =
            ingestEmit cid fp md :: classifyEmit cid (agiDeterminedType fp md.tags)
              :: workflowEmit cid (processingModules (agiDeterminedType fp md.tags))
              :: ((processingModules (agiDeterminedType fp md.tags)).take i).map
                  (moduleEmit cid)
              ++ [errorEmit cid msg (quarantinePathOf fp)] := by
          simp [dynamic_document_processor, hi]
        constructor
        · rw [hevs]
          simp only [List.countP_append, List.countP_cons, isTerminalEmit_ingest,
            isTerminalEmit_classify, isTerminalEmit_workflow, isTerminalEmit_error]
          have hz : (((processingModules (agiDeterminedType fp md.tags)).take i).map
              (moduleEmit cid)).countP isTerminalEmit = 0 := by
            rw [List.countP_eq_zero]
            intro e he
            obtain ⟨m, hm, hemit⟩ := List.mem_map.1 he
            rw [← hemit, isTerminalEmit_module]
            simp
          rw [hz]
          simp
        · left
          rw [hevs]
          simp only [List.countP_append, List.countP_cons, isCompleteEmit_ingest,
            isCompleteEmit_classify, isCompleteEmit_workflow, isCompleteEmit_error]
          have hz : (((processingModules (agiDeterminedType fp md.tags)).take i).map
              (moduleEmit cid)).countP isCompleteEmit = 0 := by
            rw [List.countP_eq_zero]
            intro e he
            obtain ⟨m, hm, hemit⟩ := List.mem_map.1 he
            rw [← hemit, isCompleteEmit_module]
            simp
          rw [hz]
          simp
      · have heq : dynamic_document_processor fp md cid (Fault.stage i msg)
            = dynamic_document_processor fp md cid Fault.none := by
          simp [dynamic_document_processor, hi]
        rw [heq]
        obtain ⟨h1, h2, h3⟩ := success_trace_facts fp md cid
        exact ⟨h1, Or.inr ⟨h2, h3⟩⟩
  | finalMove msg =>
      have hevs : (dynamic_document_processor fp md cid (Fault.finalMove msg)).events =
          ingestEmit cid fp md :: classifyEmit cid (agiDeterminedType fp md.tags)
            :: workflowEmit cid (processingModules (agiDeterminedType fp md.tags))
            :: (processingModules (agiDeterminedType fp md.tags)).map (moduleEmit cid)
            ++ [errorEmit cid msg (quarantinePathOf fp)] := by
        simp [dynamic_document_processor]
      constructor
      · rw [hevs]
        simp [List.countP_append, List.countP_cons, List.countP_map, Function.comp,
          isTerminalEmit_ingest, isTerminalEmit_classify, isTerminalEmit_workflow,
          isTerminalEmit_module, isTerminalEmit_error]
      · left
        rw [hevs]
        simp [List.countP_append, List.countP_cons, List.countP_map, Function.comp,
          isCompleteEmit_ingest, isCompleteEmit_classify, isCompleteEmit_workflow,
          isCompleteEmit_module, isCompleteEmit_error]

theorem filter_module_map (cid : Str) (mods : List Str) :
    (mods.map (moduleEmit cid)).filter isModuleEmit = mods.map (moduleEmit cid) := by
  rw [List.filter_eq_self]
  intro e he
  obtain ⟨m, hm, hemit⟩ := List.mem_map.1 he
  rw [← hemit, isModuleEmit_module]

/-- C3 (amended): a fault during classification or during the execution of a
stage within the resolved list ends the run Quarantined: the file is moved to
`quarantine_dir/basename(original_path)`, the trace ends with exactly one
`document_processing_error` event carrying the captured fault description and
the quarantine path, no `module_execution` event is emitted for the failing
stage or any later stage, and no completion event is emitted. -/
theorem quarantine_on_fault (fp : Str) (md : UploadMetadata) (cid : Str) (msg : Str) :
    ((dynamic_document_processor fp md cid (Fault.classify msg)).fileDest
        = quarantinePathOf fp ∧
      (dynamic_document_processor fp md cid (Fault.classify msg)).events.countP
        isErrorEmit = 1 ∧
      (dynamic_document_processor fp md cid (Fault.classify msg)).events.getLast?
        = some (errorEmit cid msg (quarantinePathOf fp)) ∧
      (dynamic_document_processor fp md cid (Fault.classify msg)).events.countP
        isCompleteEmit = 0 ∧
      (dynamic_document_processor fp md cid (Fault.classify msg)).events.filter
        isModuleEmit = []) ∧
    (∀ i, i < (processingModules (agiDeterminedType fp md.tags)).length →
      (dynamic_document_processor fp md cid (Fault.stage i msg)).fileDest
          = quarantinePathOf fp ∧
        (dynamic_document_processor fp md cid (Fault.stage i msg)).events.countP
          isErrorEmit = 1 ∧
        (dynamic_document_processor fp md cid (Fault.stage i msg)).events.getLast?
          = some (errorEmit cid msg (quarantinePathOf fp)) ∧
        (dynamic_document_processor fp md cid (Fault.stage i msg)).events.countP
          isCompleteEmit = 0 ∧
        (dynamic_document_processor fp md cid (Fault.stage i msg)).events.filter
          isModuleEmit =
            ((processingModules (agiDeterminedType fp md.tags)).take i).map
              (moduleEmit cid)) := by
  constructor
  · refine ⟨rfl, ?_, rfl, ?_, ?_⟩
    · simp [dynamic_document_processor, List.countP_cons,
        isErrorEmit_ingest, isErrorEmit_error]
    · simp [dynamic_document_processor, List.countP_cons,
        isCompleteEmit_ingest, isCompleteEmit_error]
    · simp [dynamic_document_processor, List.filter_cons,
        isModuleEmit_ingest, isModuleEmit_error]
  · intro i hi
    have hevs : (dynamic_document_processor fp md cid (Fault.stage i msg)).events =
        ingestEmit cid fp md :: classifyEmit cid (agiDeterminedType fp md.tags)
          :: workflowEmit cid (processingModules (agiDeterminedType fp md.tags))
          :: ((processingModules (agiDeterminedType fp md.tags)).take i).map
              (moduleEmit cid)
          ++ [errorEmit cid msg (quarantinePathOf fp)] := by
      simp [dynamic_document_processor, hi]
    have hdest : (dynamic_document_processor fp md cid (Fault.stage i msg)).fileDest
        = quarantinePathOf fp := by
      simp [dynamic_document_processor, hi]
    refine ⟨hdest, ?_, ?_, ?_, ?_⟩
    · rw [hevs]
      simp only [List.countP_append, List.countP_cons, isErrorEmit_ingest,
        isErrorEmit_classify, isErrorEmit_workflow, isErrorEmit_error]
      have hz : (((processingModules (agiDeterminedType fp md.tags)).take i).map
          (moduleEmit cid)).countP isErrorEmit = 0 := by
        rw [List.countP_eq_zero]
        intro e he
        obtain ⟨m, hm, hemit⟩ := List.mem_map.1 he
        rw [← hemit, isErrorEmit_module]
        simp
      rw [hz]
      simp
    · rw [hevs]
      have : ingestEmit cid fp md :: classifyEmit cid (agiDeterminedType fp md.tags)
          :: workflowEmit cid (processingModules (agiDeterminedType fp md.tags))
          :: ((processingModules (agiDeterminedType fp md.tags)).take i).map
              (moduleEmit cid)
          ++ [errorEmit cid msg (quarantinePathOf fp)] =
          (ingestEmit cid fp md :: classifyEmit cid (agiDeterminedType fp md.tags)
          :: workflowEmit cid (processingModules (agiDeterminedType fp md.tags))
          :: ((processingModules (agiDeterminedType fp md.tags)).take i).map
              (moduleEmit cid))
          ++ [errorEmit cid msg (quarantinePathOf fp)] := by
        simp
      rw [this, List.getLast?_concat]
    · rw [hevs]
      simp only [List.countP_append, List.countP_cons, isCompleteEmit_ingest,
        isCompleteEmit_classify, isCompleteEmit_workflow, isCompleteEmit_error]
      have hz : (((processingModules (agiDeterminedType fp md.tags)).take i).map
          (moduleEmit cid)).countP isCompleteEmit = 0 := by
        rw [List.countP_eq_zero]
        intro e he
        obtain ⟨m, hm, hemit⟩ := List.mem_map.1 he
        rw [← hemit, isCompleteEmit_module]
        simp
      rw [hz]
      simp
    · rw [hevs]
      simp only [List.filter_append, List.filter_cons, isModuleEmit_ingest,
        isModuleEmit_classify, isModuleEmit_workflow, isModuleEmit_error,
        filter_module_map]
      simp

/-- Witness for C3 (amended) at a concrete staged file, metadata, id, message
and failing stage index. -/
theorem quarantine_on_fault_witness :
    (0 < (processingModules (agiDeterminedType "/tmp/agi_staging/c_notes.txt".toList
        ({} : UploadMetadata).tags)).length) ∧
    (dynamic_document_processor "/tmp/agi_staging/c_notes.txt".toList {} "c".toList
      (Fault.stage 0 "boom".toList)).fileDest
        = quarantinePathOf "/tmp/agi_staging/c_notes.txt".toList :=
  ⟨by decide,
   ((quarantine_on_fault "/tmp/agi_staging/c_notes.txt".toList {} "c".toList
      "boom".toList).2 0 (by decide)).1⟩

/-- C3 counterexample to the claim as stated: the captured fault description
`str(e)` may be the empty string (an exception with no message), in which
case the single `document_processing_error` event carries an *empty* fault
description. -/
theorem quarantine_empty_description :
    (dynamic_document_processor "/tmp/agi_staging/c_notes.txt".toList {} "c".toList
        (Fault.stage 0 [])).events.getLast?
      = some (errorEmit "c".toList [] "/mnt/data/quarantine/c_notes.txt".toList) ∧
    (errorEmit "c".toList [] "/mnt/data/quarantine/c_notes.txt".toList).2.error
      = some [] := by
  constructor
  · decide
  · rfl

/-! ## Lemmas about the event-log query and the status endpoint -/

theorem sort_take_facts (l : List Event) (limit : Nat) :
    ((sortByTimestampDesc l).take limit).Sorted tsGE ∧
    ((sortByTimestampDesc l).take limit).length = min limit l.length ∧
    ∃ dropped : List Event,
      (((sortByTimestampDesc l).take limit) ++ dropped).Perm l ∧
      ∀ d ∈ dropped, ∀ e ∈ (sortByTimestampDesc l).take limit,
        d.timestamp ≤ e.timestamp := by
  have hs : (sortByTimestampDesc l).Sorted tsGE := List.sorted_insertionSort tsGE l
  refine ⟨List.Pairwise.sublist (List.take_sublist _ _) hs, ?_, ?_⟩
  · rw [List.length_take, sortByTimestampDesc, List.length_insertionSort]
  · refine ⟨(sortByTimestampDesc l).drop limit, ?_, ?_⟩
    · rw [List.take_append_drop]
      exact List.perm_insertionSort tsGE l
    · have hsplit := hs
      rw [← List.take_append_drop limit (sortByTimestampDesc l)] at hsplit
      have h2 := (List.pairwise_append.1 hsplit).2.2
      intro d hd e he
      exact h2 e he d hd

theorem isEmpty_false_of_ne_nil {cid : Str} (h : cid ≠ []) : cid.isEmpty = false := by
  cases cid with
  | nil => exact absurd rfl h
  | cons c t => rfl

/-- C6 (amended): for every *non-empty* correlation id and every limit, the
event-log query returns exactly the events whose payload carries that id —
each returned event carries the id, the result is sorted by timestamp
descending, its length is the lesser of the limit and the number of matching
events, and the events left out are exactly the remaining matching events,
all no newer than any returned one; with no correlation id it returns the
limit most recent events system-wide in the same order. -/
theorem get_recent_events_query (db : EventLog) (limit : Nat) (cid : Str)
    (h : cid ≠ []) :
    (∀ e ∈ get_recent_events db limit (some cid),
      e.data.correlation_id = some cid) ∧
    (get_recent_events db limit (some cid)).Sorted tsGE ∧
    (get_recent_events db limit (some cid)).length
      = min limit (db.filter (fun e => e.data.correlation_id = some cid)).length ∧
    (∃ dropped : List Event,
      ((get_recent_events db limit (some cid)) ++ dropped).Perm
        (db.filter (fun e => e.data.correlation_id = some cid)) ∧
      ∀ d ∈ dropped, ∀ e ∈ get_recent_events db limit (some cid),
        d.timestamp ≤ e.timestamp) ∧
    ((get_recent_events db limit none).Sorted tsGE ∧
      (get_recent_events db limit none).length = min limit db.length ∧
      ∃ dropped : List Event,
        ((get_recent_events db limit none) ++ dropped).Perm db ∧
        ∀ d ∈ dropped, ∀ e ∈ get_recent_events db limit none,
          d.timestamp ≤ e.timestamp) := by
  have hne : cid.isEmpty = false := isEmpty_false_of_ne_nil h
  have hr : get_recent_events db limit (some cid)
      = (sortByTimestampDesc
          (db.filter (fun e => e.data.correlation_id = some cid))).take limit := by
    simp [get_recent_events, hne]
  have hrn : get_recent_events db limit none = (sortByTimestampDesc db).take limit := rfl
  obtain ⟨hs1, hs2, hs3⟩ :=
    sort_take_facts (db.filter (fun e => e.data.correlation_id = some cid)) limit
  obtain ⟨hn1, hn2, hn3⟩ := sort_take_facts db limit
  refine ⟨?_, hr ▸ hs1, hr ▸ hs2, hr ▸ hs3, hrn ▸ hn1, hrn ▸ hn2, hrn ▸ hn3⟩
  intro e he
  rw [hr] at he
  have h1 : e ∈ sortByTimestampDesc
      (db.filter (fun e => e.data.correlation_id = some cid)) :=
    List.take_subset _ _ he
  have h2 : e ∈ db.filter (fun e => e.data.correlation_id = some cid) :=
    (List.perm_insertionSort tsGE _).subset h1
  simpa using (List.mem_filter.1 h2).2

/-- Witness for C6 at a concrete log, limit and correlation id. -/
theorem get_recent_events_query_witness :
    ("x".toList : Str) ≠ [] ∧
    (∀ e ∈ get_recent_events [sampleOtherEvent, sampleIngestEvent] 5 (some "x".toList),
      e.data.correlation_id = some "x".toList) :=
  ⟨by decide,
   (get_recent_events_query [sampleOtherEvent, sampleIngestEvent] 5 "x".toList
     (by decide)).1⟩

/-- C6 counterexample to the claim as stated: for the *empty* correlation id
the query falls into the no-id branch (Python truthiness) and returns events
whose payload does not carry that id. -/
theorem get_recent_events_empty_id_counterexample :
    get_recent_events [sampleOtherEvent] 10 (some []) = [sampleOtherEvent] ∧
    sampleOtherEvent.data.correlation_id ≠ some [] :=
  ⟨rfl, by decide⟩

/-- C9 (amended): for every *non-empty* correlation id with no events in the
log, the status operation returns normally with the explicit "Unknown" status,
the default last action, and an empty history. -/
theorem unknown_status_for_unseen_id (db : EventLog) (cid : Str) (h : cid ≠ [])
    (hnone : ∀ e ∈ db, e.data.correlation_id ≠ some cid) :
    get_document_status db cid =
      { agi_processing_status := "Unknown".toList,
        last_agi_action := "No AGI action recorded yet.".toList,
        agi_event_history := [] } := by
  have hne : cid.isEmpty = false := isEmpty_false_of_ne_nil h
  have hfilter : db.filter (fun e => e.data.correlation_id = some cid) = [] := by
    rw [List.filter_eq_nil_iff]
    intro e he
    simpa using hnone e he
  have hq : get_recent_events db 10 (some cid) = [] := by
    simp [get_recent_events, hne, hfilter, sortByTimestampDesc]
  unfold get_document_status
  rw [hq]
  rfl

/-- Witness for C9 at a concrete log and correlation id. -/
theorem unknown_status_for_unseen_id_witness :
    ("c".toList : Str) ≠ [] ∧
    (∀ e ∈ ([sampleOtherEvent] : EventLog),
      e.data.correlation_id ≠ some "c".toList) ∧
    get_document_status [sampleOtherEvent] "c".toList =
      { agi_processing_status := "Unknown".toList,
        last_agi_action := "No AGI action recorded yet.".toList,
        agi_event_history := [] } :=
  ⟨by decide, by decide,
   unknown_status_for_unseen_id [sampleOtherEvent] "c".toList (by decide) (by decide)⟩

/-- C9 counterexample to the claim as stated: for the *empty* correlation id —
an id for which the log holds zero events — the status operation does not
report "Unknown": the no-id query branch returns the whole log and the
status is read from an unrelated event. -/
theorem status_empty_id_counterexample :
    (∀ e ∈ ([sampleOtherEvent] : EventLog), e.data.correlation_id ≠ some ([] : Str)) ∧
    (get_document_status [sampleOtherEvent] []).agi_processing_status
      = "document_ingestion_start".toList ∧
    "document_ingestion_start".toList ≠ "Unknown".toList := by
  refine ⟨by decide, by decide, by decide⟩

/-- C1 (code bug): at a log holding two events for id `"c"` — ingestion-start
at time 1 and classification at time 2 — the status operation reports the
*oldest* event's type, not the most recent one's: `get_recent_events` returns
newest-first, yet `get_document_status` reads `events[-1]`, the last and
hence oldest element of that window (the variable is even named
`latest_event`). -/
theorem status_reads_oldest_event :
    sampleClassifyEvent ∈ ([sampleIngestEvent, sampleClassifyEvent] : EventLog) ∧
    (∀ e ∈ ([sampleIngestEvent, sampleClassifyEvent] : EventLog),
      e.timestamp ≤ sampleClassifyEvent.timestamp) ∧
    (get_document_status [sampleIngestEvent, sampleClassifyEvent]
        "c".toList).agi_processing_status = sampleIngestEvent.event_type ∧
    sampleIngestEvent.event_type ≠ sampleClassifyEvent.event_type := by
  refine ⟨by decide, by decide, by decide, by decide⟩

/-! ## Lemmas about the ingestion endpoint's scheduling -/

theorem processor_events_cid (fp : Str) (md : UploadMetadata) (cid : Str) (fault : Fault) :
    ∀ e ∈ (dynamic_document_processor fp md cid fault).events,
      e.2.correlation_id = some cid := by
  intro e he
  cases fault with
  | none =>
      simp only [dynamic_document_processor, List.mem_cons, List.mem_append,
        List.mem_map, List.mem_singleton, List.not_mem_nil, or_false] at he
      rcases he with (rfl | rfl | rfl | ⟨m, hm, rfl⟩) | rfl | rfl <;> rfl
  | classify msg =>
      simp only [dynamic_document_processor, List.mem_cons,
        List.mem_singleton, List.not_mem_nil, or_false] at he
      rcases he with rfl | rfl <;> rfl
  | stage i msg =>
      by_cases hi : i < (processingModules (agiDeterminedType fp md.tags)).length
      · simp only [dynamic_document_processor, hi, if_true, List.mem_cons,
          List.mem_append, List.mem_map, List.mem_singleton, List.not_mem_nil,
          or_false] at he
        rcases he with (rfl | rfl | rfl | ⟨m, hm, rfl⟩) | rfl <;> rfl
      · simp only [dynamic_document_processor, hi, if_false, List.mem_cons,
          List.mem_append, List.mem_map, List.mem_singleton, List.not_mem_nil,
          or_false] at he
        rcases he with (rfl | rfl | rfl | ⟨m, hm, rfl⟩) | rfl | rfl <;> rfl
  | finalMove msg =>
      simp only [dynamic_document_processor, List.mem_cons, List.mem_append,
        List.mem_map, List.mem_singleton, List.not_mem_nil, or_false] at he
      rcases he with (rfl | rfl | rfl | ⟨m, hm, rfl⟩) | rfl <;> rfl

/-- C2 (code bug): accepting an upload does not start a pipeline run.
`ingest_document` registers the processor as a *startup* handler of an
already-started application, so it creates no task and appends no event —
and along every subsequent system evolution, no event for the returned
correlation id is ever appended, so no status query for it can ever report
a terminal state. -/
theorem ingest_never_starts_processing (s0 : AppState) (filename : Str)
    (md : UploadMetadata) (cid : Str) (s' : AppState)
    (hstarted : s0.started = true)
    (hlog : ∀ e ∈ s0.log, e.2.correlation_id ≠ some cid)
    (htasks : ∀ t ∈ s0.tasks, t.correlation_id ≠ cid)
    (hsteps : AppReaches (ingest_document s0 filename md cid).1 s') :
    (ingest_document s0 filename md cid).1.tasks = s0.tasks ∧
    (ingest_document s0 filename md cid).1.log = s0.log ∧
    (∀ e ∈ s'.log, e.2.correlation_id ≠ some cid) := by
  refine ⟨rfl, rfl, ?_⟩
  suffices h : ∀ v, AppReaches (ingest_document s0 filename md cid).1 v →
      (v.started = true ∧ (∀ e ∈ v.log, e.2.correlation_id ≠ some cid) ∧
        (∀ t ∈ v.tasks, t.correlation_id ≠ cid)) by
    exact (h s' hsteps).2.1
  intro v hv
  induction hv with
  | refl => exact ⟨hstarted, hlog, htasks⟩
  | tail hab hbc ih =>
      obtain ⟨ih1, ih2, ih3⟩ := ih
      cases hbc with
      | runTask t fault ht =>
          refine ⟨ih1, ?_, ?_⟩
          · intro e he
            rcases List.mem_append.1 he with he | he
            · exact ih2 e he
            · have hc := processor_events_cid t.file_path t.metadata
                t.correlation_id fault e he
              rw [hc]
              intro hcontra
              exact ih3 t ht (by injection hcontra)
          · intro u hu
            exact ih3 u (List.mem_of_mem_erase hu)
      | fireStartup hs =>
          rw [ih1] at hs
          cases hs

/-- Witness for C2 at a concrete started application state and upload. -/
theorem ingest_never_starts_processing_witness :
    ({ started := true, handlers := [], tasks := [], log := [] } : AppState).started
      = true ∧
    (ingest_document { started := true, handlers := [], tasks := [], log := [] }
      "doc.pdf".toList {} "c".toList).1.tasks = [] :=
  ⟨rfl,
   (ingest_never_starts_processing
     { started := true, handlers := [], tasks := [], log := [] }
     "doc.pdf".toList {} "c".toList _ rfl (by simp) (by simp)
     Relation.ReflTransGen.refl).1⟩

end AgiBuild
